import Mathlib

/-!
Shallow embedding of the content-based recommendation engine:
`content_based_filtering.py` (function `content_based_recommendation`) and
`evaluation_content.py` (function `evaluate_content_based_metrics`).

Strings are modelled as `List Char` (ASCII fragment: `Char.toLower` models
Python `str.lower` on ASCII input, which is the domain of the catalog data).
Real-valued TF-IDF weights use `Real.log`, exactly mirroring scikit-learn
TfidfVectorizer with its defaults (smooth idf, l2 norm, token pattern of
two-or-more word characters, english stop words); cosine similarity carries
the zero-norm guard that scikit-learn applies.  Pandas `Series.str.contains`
treats the query as a regular-expression pattern; the embedding models the
pattern language fragment of literal characters plus the `.` wildcard, which
is faithful for every pattern built from those.
-/

namespace CBF

abbrev Str := List Char

/-- Python `str.lower` (ASCII fragment). -/
def lowerStr (s : Str) : Str := s.map Char.toLower

/-- Whitespace characters recognised by Python `str.strip`. -/
def pyIsSpace (c : Char) : Bool :=
  c = ' ' || c = '\t' || c = '\n' || c = '\r' || c = Char.ofNat 11 || c = Char.ofNat 12

/-- Python `str.strip`: drop leading and trailing whitespace. -/
def stripStr (s : Str) : Str :=
  ((s.dropWhile pyIsSpace).reverse.dropWhile pyIsSpace).reverse

/-- Match the regex pattern (literals and the `.` wildcard) at the start of
the string, as Python `re` does: `.` matches any character except newline. -/
def matchAt : Str → Str → Bool
  | [], _ => true
  | _ :: _, [] => false
  | p :: ps, c :: cs =>
    (if p = '.' then decide (c ≠ '\n') else decide (p = c)) && matchAt ps cs

/-- Python `re.search(pat, s) is not None` for patterns of literal characters
and the `.` wildcard: try a match at every start position, including the end.
This is the semantics of `Series.str.contains(pat)` (pandas default
`regex=True`), used by the source on the query text. -/
def reSearch (pat : Str) : Str → Bool
  | [] => matchAt pat []
  | c :: cs => matchAt pat (c :: cs) || reSearch pat cs

/-- Plain prefix test on character lists. -/
def isPrefixB : Str → Str → Bool
  | [], _ => true
  | _ :: _, [] => false
  | p :: ps, c :: cs => decide (p = c) && isPrefixB ps cs

/-- Plain substring containment, the notion the specification describes for
query resolution (contrast with `reSearch`, which is what the code does). -/
def containsSub (pat : Str) : Str → Bool
  | [] => isPrefixB pat []
  | c :: cs => isPrefixB pat (c :: cs) || containsSub pat cs

/-- Word characters of the scikit-learn token pattern (ASCII fragment of
regex `\w`): letters, digits, underscore. -/
def isWordChar (c : Char) : Bool := c.isAlphanum || c = '_'

/-- Split a string into maximal runs of word characters; the accumulator
holds the current run reversed. -/
def runsAux : Str → Str → List Str
  | [], cur => if cur = [] then [] else [cur.reverse]
  | c :: rest, cur =>
    if isWordChar c then runsAux rest (c :: cur)
    else if cur = [] then runsAux rest [] else cur.reverse :: runsAux rest []

/-- scikit-learn English stop word list (`ENGLISH_STOP_WORDS`), applied by
`TfidfVectorizer(stop_words="english")`. -/
def stopWords : List Str :=
  (["a", "about", "above", "across", "after", "afterwards", "again", "against",
    "all", "almost", "alone", "along", "already", "also", "although", "always",
    "am", "among", "amongst", "amoungst", "amount", "an", "and", "another",
    "any", "anyhow", "anyone", "anything", "anyway", "anywhere", "are",
    "around", "as", "at", "back", "be", "became", "because", "become",
    "becomes", "becoming", "been", "before", "beforehand", "behind", "being",
    "below", "beside", "besides", "between", "beyond", "bill", "both",
    "bottom", "but", "by", "call", "can", "cannot", "cant", "co", "con",
    "could", "couldnt", "cry", "de", "describe", "detail", "do", "done",
    "down", "due", "during", "each", "eg", "eight", "either", "eleven",
    "else", "elsewhere", "empty", "enough", "etc", "even", "ever", "every",
    "everyone", "everything", "everywhere", "except", "few", "fifteen",
    "fifty", "fill", "find", "fire", "first", "five", "for", "former",
    "formerly", "forty", "found", "four", "from", "front", "full", "further",
    "get", "give", "go", "had", "has", "hasnt", "have", "he", "hence", "her",
    "here", "hereafter", "hereby", "herein", "hereupon", "hers", "herself",
    "him", "himself", "his", "how", "however", "hundred", "i", "ie", "if",
    "in", "inc", "indeed", "interest", "into", "is", "it", "its", "itself",
    "keep", "last", "latter", "latterly", "least", "less", "ltd", "made",
    "many", "may", "me", "meanwhile", "might", "mill", "mine", "more",
    "moreover", "most", "mostly", "move", "much", "must", "my", "myself",
    "name", "namely", "neither", "never", "nevertheless", "next", "nine",
    "no", "nobody", "none", "noone", "nor", "not", "nothing", "now",
    "nowhere", "of", "off", "often", "on", "once", "one", "only", "onto",
    "or", "other", "others", "otherwise", "our", "ours", "ourselves", "out",
    "over", "own", "part", "per", "perhaps", "please", "put", "rather", "re",
    "same", "see", "seem", "seemed", "seeming", "seems", "serious", "several",
    "she", "should", "show", "side", "since", "sincere", "six", "sixty",
    "so", "some", "somehow", "someone", "something", "sometime", "sometimes",
    "somewhere", "still", "such", "system", "take", "ten", "than", "that",
    "the", "their", "them", "themselves", "then", "thence", "there",
    "thereafter", "thereby", "therefore", "therein", "thereupon", "these",
    "they", "thick", "thin", "third", "this", "those", "though", "three",
    "through", "throughout", "thru", "thus", "to", "together", "too", "top",
    "toward", "towards", "twelve", "twenty", "two", "un", "under", "until",
    "up", "upon", "us", "very", "via", "was", "we", "well", "were", "what",
    "whatever", "when", "whence", "whenever", "where", "whereafter",
    "whereas", "whereby", "wherein", "whereupon", "wherever", "whether",
    "which", "while", "whither", "who", "whoever", "whole", "whom", "whose",
    "why", "will", "with", "within", "without", "would", "yet", "you",
    "your", "yours", "yourself", "yourselves"] : List String).map
    (fun s => s.data)

/-- scikit-learn analyzer: lowercase the document, keep maximal runs of at
least two word characters, drop stop words. -/
def tokensOf (d : Str) : List Str :=
  ((runsAux (lowerStr d) []).filter (fun t => 2 ≤ t.length)).filter
    (fun t => decide (t ∉ stopWords))

/-- Lexicographic strict order on character lists (scikit-learn sorts its
vocabulary alphabetically). -/
def strLtB : Str → Str → Bool
  | [], [] => false
  | [], _ :: _ => true
  | _ :: _, [] => false
  | a :: as, b :: bs => decide (a < b) || (decide (a = b) && strLtB as bs)

/-- One row of the catalog DataFrame after `process_data` (default integer
index, so positional index and label coincide).  `tags` is an `Option`
because the Tags column may hold missing values (the code applies
`fillna("")`); `category` is an `Option` because `item_data.get` is used
with a `None` default. -/
structure Row where
  name : Str
  brand : Str
  tags : Option Str
  rating : ℚ
  reviewCount : ℤ
  imageURL : Str
  category : Option Str
deriving DecidableEq

instance : Inhabited Row := ⟨⟨[], [], none, 0, 0, [], none⟩⟩

/-- The display record selected by the final column projection
`[Name, Brand, Rating, ReviewCount, ImageURL]` of the recommender. -/
structure DisplayRec where
  name : Str
  brand : Str
  rating : ℚ
  reviewCount : ℤ
  imageURL : Str
deriving DecidableEq

def Row.display (r : Row) : DisplayRec :=
  ⟨r.name, r.brand, r.rating, r.reviewCount, r.imageURL⟩

/-- `data["Tags"].fillna("")`: the document corpus. -/
def corpus (data : List Row) : List Str := data.map (fun r => r.tags.getD [])

/-- The fitted vocabulary: sorted distinct tokens over the whole corpus. -/
def vocabOf (data : List Row) : List Str :=
  List.insertionSort (fun a b => strLtB b a = false)
    (((corpus data).map tokensOf).flatten.dedup)

/-- Document frequency of a term. -/
def dfOf (data : List Row) (t : Str) : ℕ :=
  ((corpus data).filter (fun d => decide (t ∈ tokensOf d))).length

/-- Smooth inverse document frequency of scikit-learn:
`ln((1 + n) / (1 + df)) + 1`. -/
noncomputable def idfOf (data : List Row) (t : Str) : ℝ :=
  Real.log ((1 + (data.length : ℝ)) / (1 + (dfOf data t : ℝ))) + 1

/-- Unnormalised TF-IDF vector of one document over the fitted vocabulary. -/
noncomputable def tfidfRowOf (data : List Row) (d : Str) : List ℝ :=
  (vocabOf data).map (fun t => ((tokensOf d).count t : ℝ) * idfOf data t)

/-- The TF-IDF matrix, one row per catalog row. -/
noncomputable def tfidfRows (data : List Row) : List (List ℝ) :=
  (corpus data).map (tfidfRowOf data)

/-- Dot product of two coordinate lists. -/
def dotL (u v : List ℝ) : ℝ := (List.zipWith (· * ·) u v).sum

/-- Cosine similarity with the zero-norm guard of scikit-learn: a zero
vector has similarity 0 to everything.  (TfidfVectorizer l2-normalises its
rows and `cosine_similarity` normalises again; on exact reals the composite
equals this formula on the unnormalised rows.) -/
noncomputable def cosSim (u v : List ℝ) : ℝ :=
  if dotL u u = 0 ∨ dotL v v = 0 then 0
  else dotL u v / (Real.sqrt (dotL u u) * Real.sqrt (dotL v v))

/-- Row `a` of the similarity matrix: `similarity_matrix[item_index]`. -/
noncomputable def simScores (data : List Row) (a : ℕ) : List ℝ :=
  (tfidfRows data).map (fun v => cosSim ((tfidfRows data).getD a []) v)

/-- The sort order of `sorted(enumerate(scores), key=score, reverse=True)`:
score descending; Python timsort is stable, and since the enumerate indices
are strictly increasing, stability is exactly the index ascending tie-break,
giving this total order. -/
def rankRel (p q : ℕ × ℝ) : Prop := q.2 < p.2 ∨ (p.2 = q.2 ∧ p.1 ≤ q.1)

noncomputable instance : DecidableRel rankRel :=
  fun _ _ => Classical.propDecidable _

instance : IsTotal (ℕ × ℝ) rankRel where
  total p q := by
    rcases lt_trichotomy p.2 q.2 with h | h | h
    · exact Or.inr (Or.inl h)
    · rcases Nat.le_total p.1 q.1 with h1 | h1
      · exact Or.inl (Or.inr ⟨h, h1⟩)
      · exact Or.inr (Or.inr ⟨h.symm, h1⟩)
    · exact Or.inl (Or.inl h)

instance : IsTrans (ℕ × ℝ) rankRel where
  trans p q r hpq hqr := by
    rcases hpq with h1 | ⟨e1, i1⟩
    · rcases hqr with h2 | ⟨e2, _⟩
      · exact Or.inl (h2.trans h1)
      · exact Or.inl (e2 ▸ h1)
    · rcases hqr with h2 | ⟨e2, i2⟩
      · exact Or.inl (e1 ▸ h2)
      · exact Or.inr ⟨e1.trans e2, i1.trans i2⟩

/-- The sorted `(index, score)` list. -/
noncomputable def sortPairs (l : List (ℕ × ℝ)) : List (ℕ × ℝ) :=
  List.insertionSort rankRel l

noncomputable def rankedPairs (data : List Row) (a : ℕ) : List (ℕ × ℝ) :=
  sortPairs (simScores data a).enum

/-- `similarity_scores[1 : top_n + 1]`: skip the first ranked slot, keep the
next `top_n`. -/
noncomputable def topPairs (data : List Row) (a topN : ℕ) : List (ℕ × ℝ) :=
  ((rankedPairs data a).drop 1).take topN

noncomputable def topIndices (data : List Row) (a topN : ℕ) : List ℕ :=
  (topPairs data a topN).map Prod.fst

/-- First positional index whose row satisfies the predicate:
`matches.index[0]` on the filtered frame. -/
def findFirst (p : Row → Bool) : List Row → Option ℕ
  | [] => none
  | r :: rs => if p r then some 0 else (findFirst p rs).map (· + 1)

/-- Resolution of the query: first row whose lowercased name matches the
pattern (`data["Name"].astype(str).str.lower().str.contains(item_name)`). -/
def anchorIndex (data : List Row) (q : Str) : Option ℕ :=
  findFirst (fun r => reSearch q (lowerStr r.name)) data

/-- `content_based_recommendation(data, item_name, top_n)`.

The query argument is `Option Str`: `none` stands for any non-string value
(the code checks `isinstance(item_name, str)`).  The result is `none` when
the call raises: scikit-learn `fit_transform` raises `ValueError` when the
fitted vocabulary is empty (all documents reduce to no tokens), which
happens after query validation and anchor resolution succeed. -/
noncomputable def content_based_recommendation
    (data : List Row) (item_name : Option Str) (topN : ℕ) :
    Option (List DisplayRec) :=
  match item_name with
  | none => some []
  | some s =>
    if s = [] then some []
    else
      match anchorIndex data (stripStr (lowerStr s)) with
      | none => some []
      | some a =>
        if vocabOf data = [] then none
        else some ((topIndices data a topN).map
          (fun i => (data.getD i default).display))

/-- Outcome of `evaluate_content_based_metrics`, which can also end in an
uncaught exception. -/
inductive PyError where
  | valueErr
  | zeroDivErr
deriving DecidableEq

inductive EvalResult where
  /-- Python returns the literal `True` when the item is not found. -/
  | notFound
  /-- Python returns `None` when the recommendation list is empty. -/
  | noRecs
  | score (precisionV recallV f1 : ℚ)
  | raised (e : PyError)
deriving DecidableEq

/-- Truthiness of the category value (`if item_category:`): `None` and the
empty string are falsy. -/
def optTruthy : Option Str → Bool
  | none => false
  | some s => !s.isEmpty

/-- `data['Brand'] == item_category` where the right side is `None` or a
string: comparison with `None` never matches. -/
def brandEqCat (b : Str) : Option Str → Bool
  | none => false
  | some c => decide (b = c)

/-- The relevance name set built by lines 26-30 of `evaluation_content.py`:
names of rows sharing the category (when truthy) united with names of rows
whose Brand equals the category value; Python set semantics modelled by
`dedup`. -/
def relevantNames (data : List Row) (item : Row) : List Str :=
  ((if optTruthy item.category then
      (data.filter (fun r => decide (r.category = item.category))).map
        (fun r => r.name)
    else []) ++
    (data.filter (fun r => brandEqCat r.brand item.category)).map
      (fun r => r.name)).dedup

/-- `len(recommend_names & relevant_items)`. -/
def tpOf (recs : List DisplayRec) (relevant : List Str) : ℕ :=
  (((recs.map (fun d => d.name)).dedup).filter
    (fun nm => decide (nm ∈ relevant))).length

/-- Lines 44-46: precision, recall with its guard, and the F1 line exactly
as written, `2 * (p * r) / (p * r)`, which raises `ZeroDivisionError`
whenever `p + r > 0` but `p * r == 0`. -/
def metricsOf (topN tp : ℕ) (totalRelevant : ℤ) : EvalResult :=
  let precisionV : ℚ := (tp : ℚ) / (topN : ℚ)
  let recallV : ℚ :=
    if 0 < totalRelevant then (tp : ℚ) / (totalRelevant : ℚ) else 0
  if 0 < precisionV + recallV then
    if precisionV * recallV = 0 then .raised .zeroDivErr
    else .score precisionV recallV
      (2 * (precisionV * recallV) / (precisionV * recallV))
  else .score precisionV recallV 0

/-- `evaluate_content_based_metrics(data, item_name, top_n)`. -/
noncomputable def evaluate_content_based_metrics
    (data : List Row) (item_name : Str) (topN : ℕ) : EvalResult :=
  match data.filter (fun r => decide (r.name = item_name)) with
  | [] => .notFound
  | item :: _ =>
    match content_based_recommendation data (some item_name) topN with
    | none => .raised .valueErr
    | some [] => .noRecs
    | some recs =>
      metricsOf topN (tpOf recs (relevantNames data item))
        ((relevantNames data item).length - 1)

/-- Modelled from the spec: F1 as the harmonic mean of precision and recall,
0 when both are 0 (section 4.4 of the specification). -/
def harmonicF1 (p r : ℚ) : ℚ := if p + r = 0 then 0 else 2 * p * r / (p + r)

/-- Modelled from the spec: the relevance set of section 4.4, all catalog
items sharing the query item category, excluding the query item itself. -/
def specRelevant (data : List Row) (item : Row) : List Row :=
  data.filter (fun r => decide (r.category = item.category) && decide (r ≠ item))

/-! Concrete catalogs used by the closed theorems below. -/

def c1row0 : Row := ⟨"aa".data, "b1".data, some "tt".data, 0, 0, [], some "cc".data⟩
def c1row1 : Row := ⟨"bb".data, "b2".data, some "tt".data, 0, 0, [], some "cc".data⟩
def dataC1 : List Row := [c1row0, c1row1]

def c2row0 : Row := ⟨"aa".data, "b1".data, some "tt".data, 0, 0, [], some "cc".data⟩
def c2row1 : Row := ⟨"aa".data, "b2".data, some "tt".data, 0, 0, [], some "dd".data⟩
def dataC2 : List Row := [c2row0, c2row1]

def c3row0 : Row := ⟨"xx".data, "b1".data, some "tt".data, 0, 0, [], none⟩
def c3row1 : Row := ⟨"yy".data, "b2".data, some "tt".data, 0, 0, [], none⟩
def dataC3 : List Row := [c3row0, c3row1]

def c3wrow0 : Row := ⟨"aa".data, "b1".data, some "tt".data, 0, 0, [], none⟩
def c3wrow1 : Row := ⟨"bb".data, "b2".data, some "tt".data, 0, 0, [], none⟩
def dataC3W : List Row := [c3wrow0, c3wrow1]

def c4row0 : Row := ⟨"aa".data, "b1".data, some "tt".data, 0, 0, [], some "xx".data⟩
def c4row1 : Row := ⟨"bb".data, "xx".data, some "tt".data, 0, 0, [], some "yy".data⟩
def dataC4 : List Row := [c4row0, c4row1]

def c5row0 : Row := ⟨"aa".data, "b1".data, some "tt".data, 0, 0, [], none⟩
def dataC5 : List Row := [c5row0]

def c6row0 : Row := ⟨"ab".data, "b1".data, some "tt".data, 0, 0, [], none⟩
def c6row1 : Row := ⟨"cd".data, "b2".data, some "tt".data, 0, 0, [], none⟩
def dataC6 : List Row := [c6row0, c6row1]

def c6wrow0 : Row := ⟨"aa".data, "b1".data, some "tt".data, 0, 0, [], none⟩
def c6wrow1 : Row := ⟨"bb".data, "b2".data, some "tt".data, 0, 0, [], none⟩
def dataC6W : List Row := [c6wrow0, c6wrow1]

def c7row0 : Row := ⟨"aa".data, "b1".data, some "tt".data, 0, 0, [], none⟩
def c7row1 : Row := ⟨"bb".data, "b2".data, some "tt".data, 0, 0, [], none⟩
def dataC7 : List Row := [c7row0, c7row1]

def c9row0 : Row := ⟨"ab".data, "b1".data, some [], 0, 0, [], none⟩
def c9row1 : Row := ⟨"cd".data, "b2".data, some [], 0, 0, [], none⟩
def dataC9 : List Row := [c9row0, c9row1]

def c9wrow0 : Row := ⟨"aa".data, "b1".data, some "tt".data, 0, 0, [], none⟩
def c9wrow1 : Row := ⟨"bb".data, "b2".data, some "tt".data, 0, 0, [], none⟩
def dataC9W : List Row := [c9wrow0, c9wrow1]

def c10row0 : Row := ⟨"aa".data, "b1".data, some "tt".data, 0, 0, [], some "cc".data⟩
def dataC10 : List Row := [c10row0]

/-! Helper lemmas: first-match search. -/

theorem findFirst_eq_none_iff (p : Row → Bool) (l : List Row) :
    findFirst p l = none ↔ ∀ r ∈ l, p r = false := by
  induction l with
  | nil => simp [findFirst]
  | cons r rs ih => by_cases h : p r <;> simp [findFirst, h, ih]

theorem findFirst_lt_length {p : Row → Bool} :
    ∀ {l : List Row} {a : ℕ}, findFirst p l = some a → a < l.length := by
  intro l
  induction l with
  | nil => intro a h; simp [findFirst] at h
  | cons r rs ih =>
    intro a h
    by_cases hp : p r
    · simp [findFirst, hp] at h
      simp only [List.length_cons]
      omega
    · simp [findFirst, hp] at h
      obtain ⟨b, hb, rfl⟩ := h
      have := ih hb
      simp only [List.length_cons]
      omega

theorem findFirst_spec {p : Row → Bool} :
    ∀ {l : List Row} {a : ℕ}, findFirst p l = some a →
      p (l.getD a default) = true ∧ ∀ j < a, p (l.getD j default) = false := by
  intro l
  induction l with
  | nil => intro a h; simp [findFirst] at h
  | cons r rs ih =>
    intro a h
    by_cases hp : p r
    · simp [findFirst, hp] at h
      subst h
      exact ⟨by simpa using hp, fun j hj => absurd hj (by omega)⟩
    · simp [findFirst, hp] at h
      obtain ⟨b, hb, rfl⟩ := h
      obtain ⟨h1, h2⟩ := ih hb
      refine ⟨by simpa using h1, ?_⟩
      intro j hj
      cases j with
      | zero => simpa using (by simpa using hp : p r = false)
      | succ j =>
        simp only [List.getD]
        simpa using h2 j (by omega)

theorem findFirst_congr {p q : Row → Bool} :
    ∀ {l : List Row}, (∀ r ∈ l, p r = q r) → findFirst p l = findFirst q l := by
  intro l
  induction l with
  | nil => intro _; rfl
  | cons r rs ih =>
    intro h
    have hr := h r (List.mem_cons_self r rs)
    simp only [findFirst, hr, ih (fun x hx => h x (List.mem_cons_of_mem r hx))]

theorem findFirst_all_true {p : Row → Bool} {l : List Row}
    (hl : l ≠ []) (h : ∀ r ∈ l, p r = true) : findFirst p l = some 0 := by
  cases l with
  | nil => exact absurd rfl hl
  | cons r rs => simp [findFirst, h r (List.mem_cons_self r rs)]

/-! Helper lemmas: the pattern search of `str.contains`. -/

theorem matchAt_nil (s : Str) : matchAt [] s = true := by cases s <;> rfl

theorem reSearch_nil (s : Str) : reSearch [] s = true := by
  induction s with
  | nil => rfl
  | cons c cs ih => simp [reSearch, matchAt]

theorem matchAt_eq_isPrefixB {p : Str} (hp : '.' ∉ p) :
    ∀ s, matchAt p s = isPrefixB p s := by
  induction p with
  | nil => intro s; cases s <;> rfl
  | cons a ps ih =>
    intro s
    have ha : ¬a = '.' := fun h => hp (h ▸ List.mem_cons_self a ps)
    have hps : '.' ∉ ps := fun h => hp (List.mem_cons_of_mem a h)
    cases s with
    | nil => rfl
    | cons c cs => simp [matchAt, isPrefixB, if_neg ha, ih hps]

theorem reSearch_eq_containsSub {p : Str} (hp : '.' ∉ p) :
    ∀ s, reSearch p s = containsSub p s := by
  intro s
  induction s with
  | nil => simp [reSearch, containsSub, matchAt_eq_isPrefixB hp]
  | cons c cs ih => simp [reSearch, containsSub, matchAt_eq_isPrefixB hp, ih]

/-! Helper lemmas: normalisation of whitespace-only queries. -/

theorem stripStr_of_all_space {s : Str} (h : ∀ c ∈ s, pyIsSpace c = true) :
    stripStr s = [] := by
  have h1 : s.dropWhile pyIsSpace = [] :=
    List.dropWhile_eq_nil_iff.mpr (fun c hc => by simp [h c hc])
  simp [stripStr, h1]

theorem pyIsSpace_toLower {c : Char} (h : pyIsSpace c = true) :
    Char.toLower c = c := by
  simp only [pyIsSpace, Bool.or_eq_true, decide_eq_true_eq] at h
  rcases h with ((((h | h) | h) | h) | h) | h <;> subst h <;> decide

theorem lowerStr_all_space {s : Str} (h : ∀ c ∈ s, pyIsSpace c = true) :
    ∀ c ∈ lowerStr s, pyIsSpace c = true := by
  intro c hc
  simp only [lowerStr, List.mem_map] at hc
  obtain ⟨c0, hc0, rfl⟩ := hc
  rw [pyIsSpace_toLower (h c0 hc0)]
  exact h c0 hc0

/-! Helper lemmas: dot products and cosine similarity. -/

theorem dotL_nil_right (u : List ℝ) : dotL u [] = 0 := by cases u <;> rfl

theorem dotL_cons (a b : ℝ) (u v : List ℝ) :
    dotL (a :: u) (b :: v) = a * b + dotL u v := by simp [dotL]

theorem dotL_self_nonneg (u : List ℝ) : 0 ≤ dotL u u := by
  induction u with
  | nil => simp [dotL]
  | cons a u ih => rw [dotL_cons]; nlinarith [mul_self_nonneg a]

theorem dotL_sq_le (u : List ℝ) :
    ∀ v, (dotL u v) ^ 2 ≤ dotL u u * dotL v v := by
  induction u with
  | nil => intro v; simp [dotL]
  | cons a u ih =>
    intro v
    cases v with
    | nil => simp [dotL_nil_right]
    | cons b v =>
      rw [dotL_cons, dotL_cons, dotL_cons]
      have h := ih v
      have hA := dotL_self_nonneg u
      have hB := dotL_self_nonneg v
      rcases eq_or_lt_of_le hB with hB0 | hB0
      · have hD : dotL u v = 0 := by nlinarith [sq_nonneg (dotL u v)]
        rw [hD, ← hB0]
        nlinarith [mul_nonneg hA (mul_self_nonneg b)]
      · nlinarith [sq_nonneg (a * dotL v v - b * dotL u v),
          mul_nonneg (sq_nonneg b) (sub_nonneg.mpr h),
          mul_nonneg (le_of_lt hB0) (sub_nonneg.mpr h)]

theorem cosSim_self {u : List ℝ} (h : dotL u u ≠ 0) : cosSim u u = 1 := by
  rw [cosSim, if_neg (by push_neg; exact ⟨h, h⟩)]
  rw [Real.mul_self_sqrt (dotL_self_nonneg u)]
  exact div_self h

theorem cosSim_le_self (u v : List ℝ) : cosSim u v ≤ cosSim u u := by
  by_cases hu : dotL u u = 0
  · rw [cosSim, if_pos (Or.inl hu), cosSim, if_pos (Or.inl hu)]
  · rw [cosSim_self hu]
    by_cases hv : dotL v v = 0
    · rw [cosSim, if_pos (Or.inr hv)]; norm_num
    · rw [cosSim, if_neg (by push_neg; exact ⟨hu, hv⟩)]
      have hu' : 0 < dotL u u := lt_of_le_of_ne (dotL_self_nonneg u) (Ne.symm hu)
      have hv' : 0 < dotL v v := lt_of_le_of_ne (dotL_self_nonneg v) (Ne.symm hv)
      have hden : 0 < Real.sqrt (dotL u u) * Real.sqrt (dotL v v) :=
        mul_pos (Real.sqrt_pos.mpr hu') (Real.sqrt_pos.mpr hv')
      rw [div_le_one hden]
      have h2 : dotL u v ≤ |dotL u v| := le_abs_self _
      have h3 : |dotL u v| = Real.sqrt ((dotL u v) ^ 2) :=
        (Real.sqrt_sq_eq_abs _).symm
      have h4 : Real.sqrt ((dotL u v) ^ 2) ≤ Real.sqrt (dotL u u * dotL v v) :=
        Real.sqrt_le_sqrt (dotL_sq_le u v)
      rw [Real.sqrt_mul (le_of_lt hu')] at h4
      linarith [h3 ▸ h4]

/-! Helper lemmas: the stable descending sort. -/

theorem sortPairs_sorted (l : List (ℕ × ℝ)) :
    List.Sorted rankRel (sortPairs l) := List.sorted_insertionSort rankRel l

theorem sortPairs_perm (l : List (ℕ × ℝ)) :
    List.Perm (sortPairs l) l := List.perm_insertionSort rankRel l

theorem sortPairs_length (l : List (ℕ × ℝ)) :
    (sortPairs l).length = l.length := (sortPairs_perm l).length_eq

theorem sortPairs_pair {x y : ℕ × ℝ} (h : rankRel x y) :
    sortPairs [x, y] = [x, y] := by
  simp [sortPairs, List.insertionSort, List.orderedInsert, h]

/-! Helper lemmas: the ranking pipeline. -/

theorem tfidfRows_length (data : List Row) :
    (tfidfRows data).length = data.length := by simp [tfidfRows, corpus]

theorem simScores_length (data : List Row) (a : ℕ) :
    (simScores data a).length = data.length := by
  simp [simScores, tfidfRows, corpus]

theorem content_some {data : List Row} {s : Str} {a topN : ℕ}
    (hq : s ≠ []) (ha : anchorIndex data (stripStr (lowerStr s)) = some a)
    (hv : vocabOf data ≠ []) :
    content_based_recommendation data (some s) topN =
      some ((topIndices data a topN).map
        (fun i => (data.getD i default).display)) := by
  simp [content_based_recommendation, hq, ha, hv]

theorem topIndices_length (data : List Row) (a topN : ℕ) :
    (topIndices data a topN).length = min topN (data.length - 1) := by
  simp [topIndices, topPairs, rankedPairs, sortPairs_length,
    List.length_take, List.length_drop, simScores_length, List.enum_length]

theorem topIndices_pairEq {data : List Row} {a topN : ℕ} {s : ℝ}
    (h : simScores data a = [s, s]) (ht : 1 ≤ topN) :
    topIndices data a topN = [1] := by
  have henum : ([s, s] : List ℝ).enum = [(0, s), (1, s)] := rfl
  have hr : rankRel (0, s) (1, s) := Or.inr ⟨rfl, by norm_num⟩
  unfold topIndices topPairs rankedPairs
  rw [h, henum, sortPairs_pair hr]
  obtain ⟨n, rfl⟩ : ∃ n, topN = n + 1 := ⟨topN - 1, by omega⟩
  simp

theorem simScores_two {data : List Row} {t : Str} {a : ℕ}
    (hc : corpus data = [t, t]) (ha : a < 2) :
    simScores data a =
      [cosSim (tfidfRowOf data t) (tfidfRowOf data t),
       cosSim (tfidfRowOf data t) (tfidfRowOf data t)] := by
  unfold simScores tfidfRows
  rw [hc]
  interval_cases a <;> simp

theorem recs_two_eqtags {data : List Row} {s : Str} {a topN : ℕ}
    (hq : s ≠ []) (ha : anchorIndex data (stripStr (lowerStr s)) = some a)
    (hv : vocabOf data ≠ []) (hc : ∃ t, corpus data = [t, t])
    (ha2 : a < 2) (ht : 1 ≤ topN) :
    content_based_recommendation data (some s) topN =
      some [(data.getD 1 default).display] := by
  obtain ⟨t, hc⟩ := hc
  rw [content_some hq ha hv, topIndices_pairEq (simScores_two hc ha2) ht]
  simp

/-! Helper lemmas: the head of the ranked list is the unique maximum. -/

theorem get?_eq_some_getD {α : Type} (l : List α) (n : ℕ) (d : α)
    (h : n < l.length) : l.get? n = some (l.getD n d) := by
  rw [List.getD_eq_get?]
  cases hg : l.get? n with
  | none => exact absurd (List.get?_eq_none.mp hg) (by omega)
  | some x => rfl

theorem sortPairs_enum_head {scores : List ℝ} {a : ℕ} {sa : ℝ}
    (ha : (a, sa) ∈ scores.enum)
    (hle : ∀ p ∈ scores.enum, p.2 ≤ sa)
    (hlt : ∀ p ∈ scores.enum, p.1 < a → p.2 < sa) :
    ∃ t, sortPairs scores.enum = (a, sa) :: t ∧ a ∉ t.map Prod.fst := by
  have hperm := sortPairs_perm scores.enum
  have hmem : (a, sa) ∈ sortPairs scores.enum := hperm.symm.subset ha
  obtain ⟨h, t, hL⟩ : ∃ h t, sortPairs scores.enum = h :: t := by
    cases hS : sortPairs scores.enum with
    | nil => rw [hS] at hmem; simp at hmem
    | cons h t => exact ⟨h, t, rfl⟩
  have hsorted := sortPairs_sorted scores.enum
  rw [hL] at hsorted hperm hmem
  have hhead : ∀ b ∈ t, rankRel h b := (List.sorted_cons.mp hsorted).1
  have hhm : h ∈ scores.enum := hperm.subset (List.mem_cons_self h t)
  have hha : h = (a, sa) := by
    rcases List.mem_cons.mp hmem with he | hti
    · exact he.symm
    · have hr := hhead _ hti
      rcases hr with hgt | ⟨heq, hle1⟩
      · exact absurd (hle h hhm) (not_le.mpr hgt)
      · have hne : ¬h.1 < a := fun hlt1 => absurd heq (ne_of_lt (hlt h hhm hlt1))
        have h1a : h.1 = a := le_antisymm hle1 (not_lt.mp hne)
        have hg1 := List.mem_enum_iff_get?.mp hhm
        have hg2 := List.mem_enum_iff_get?.mp ha
        rw [h1a] at hg1
        rw [hg2] at hg1
        exact Prod.ext h1a (Option.some.inj hg1).symm
  subst hha
  refine ⟨t, hL, ?_⟩
  have hnd : (((a, sa) :: t).map Prod.fst).Nodup :=
    ((hperm.map Prod.fst).nodup_iff).mpr (List.nodup_enum_map_fst scores)
  rw [List.map_cons] at hnd
  exact (List.nodup_cons.mp hnd).1

/-! Helper lemmas: the anchor has similarity 1 and dominates the scores. -/

theorem vocab_ne_of_dot {data : List Row} {a : ℕ}
    (hnz : dotL ((tfidfRows data).getD a []) ((tfidfRows data).getD a []) ≠ 0) :
    vocabOf data ≠ [] := by
  intro hv
  apply hnz
  have hrow : ∀ d, tfidfRowOf data d = [] := by
    intro d
    unfold tfidfRowOf
    rw [hv]
    rfl
  have hz : (tfidfRows data).getD a [] = [] := by
    unfold tfidfRows
    rw [List.getD_eq_get?]
    cases hg : ((corpus data).map (tfidfRowOf data)).get? a with
    | none => rfl
    | some x =>
      obtain ⟨d, _, rfl⟩ := List.mem_map.mp (List.get?_mem hg)
      simp [hrow]
  rw [hz]
  rfl

theorem anchor_mem_enum {data : List Row} {a : ℕ}
    (hlen : a < data.length)
    (hnz : dotL ((tfidfRows data).getD a []) ((tfidfRows data).getD a []) ≠ 0) :
    (a, (1 : ℝ)) ∈ (simScores data a).enum := by
  rw [List.mem_enum_iff_get?]
  have hlen2 : a < (tfidfRows data).length := by
    rw [tfidfRows_length]; exact hlen
  show (simScores data a).get? a = some 1
  unfold simScores
  rw [List.get?_map, get?_eq_some_getD (tfidfRows data) a [] hlen2]
  simp only [Option.map_some']
  exact congrArg some (cosSim_self hnz)

/-- C3 (amended): for every catalog and query resolving to anchor `a`, the
returned sequence excludes the anchor, provided the anchor TF-IDF vector is
nonzero and every item earlier in catalog order has similarity strictly
below 1 to the anchor.  Excluding the anchor is done by skipping the first
ranked slot, so an earlier item that ties at similarity 1 (for instance a
duplicate of the anchor tags) would be skipped instead and the anchor would
leak into the output; see the counterexample. -/
theorem c3_anchor_excluded {data : List Row} {q : Str} {a topN : ℕ}
    (hq : q ≠ [])
    (ha : anchorIndex data (stripStr (lowerStr q)) = some a)
    (hnz : dotL ((tfidfRows data).getD a []) ((tfidfRows data).getD a []) ≠ 0)
    (hlt : ∀ p ∈ (simScores data a).enum, p.1 < a → p.2 < 1) :
    content_based_recommendation data (some q) topN =
      some ((topIndices data a topN).map
        (fun i => (data.getD i default).display)) ∧
    a ∉ topIndices data a topN := by
  have hv := vocab_ne_of_dot hnz
  refine ⟨content_some hq ha hv, ?_⟩
  have hlen : a < data.length := findFirst_lt_length ha
  have hmem := anchor_mem_enum hlen hnz
  have hle : ∀ p ∈ (simScores data a).enum, p.2 ≤ 1 := by
    intro p hp
    have h2 : p.2 ∈ simScores data a :=
      List.get?_mem (List.mem_enum_iff_get?.mp hp)
    unfold simScores at h2
    obtain ⟨v, _, hveq⟩ := List.mem_map.mp h2
    rw [← hveq]
    calc cosSim ((tfidfRows data).getD a []) v
        ≤ cosSim ((tfidfRows data).getD a []) ((tfidfRows data).getD a []) :=
          cosSim_le_self _ _
      _ = 1 := cosSim_self hnz
  obtain ⟨t, hL, hnotin⟩ := sortPairs_enum_head hmem hle hlt
  unfold topIndices topPairs rankedPairs
  rw [hL]
  simp only [List.drop_succ_cons, List.drop_zero]
  intro hcon
  apply hnotin
  obtain ⟨p, hp, hpa⟩ := List.mem_map.mp hcon
  exact List.mem_map.mpr ⟨p, List.mem_of_mem_take hp, hpa⟩

/-! The claims. -/

/-- C5: when the query item name is absent from the catalog (the lookup is
by exact name equality), the harness returns the not-found signal (Python
`True`), which is distinct from every score record and from every raised
exception. -/
theorem c5_not_found (data : List Row) (nm : Str) (topN : ℕ)
    (h : ∀ r ∈ data, r.name ≠ nm) :
    evaluate_content_based_metrics data nm topN = .notFound ∧
    (∀ p r f, (EvalResult.notFound : EvalResult) ≠ .score p r f) ∧
    (∀ e, (EvalResult.notFound : EvalResult) ≠ .raised e) := by
  have hf : data.filter (fun r => decide (r.name = nm)) = [] :=
    List.filter_eq_nil_iff.mpr (fun r hr => by simp [h r hr])
  exact ⟨by simp [evaluate_content_based_metrics, hf],
    fun p r f h => EvalResult.noConfusion h,
    fun e h => EvalResult.noConfusion h⟩

theorem c5_not_found_witness :
    (∀ r ∈ dataC5, r.name ≠ "bb".data) ∧
    evaluate_content_based_metrics dataC5 ("bb".data) 5 = .notFound :=
  ⟨by decide, (c5_not_found dataC5 ("bb".data) 5 (by decide)).1⟩

/-- Helper: the recommendation list for a one-item catalog is empty (the
single ranked slot is skipped). -/
theorem recsC10 :
    content_based_recommendation dataC10 (some ("aa".data)) 10 = some [] := by
  have ha : anchorIndex dataC10 (stripStr (lowerStr ("aa".data))) = some 0 := by
    decide
  have hv : vocabOf dataC10 ≠ [] := by decide
  rw [content_some (by decide) ha hv]
  have hti : topIndices dataC10 0 10 = [] :=
    List.length_eq_zero.mp (by rw [topIndices_length]; decide)
  rw [hti]
  rfl

/-- C10: when the query item is present but the recommender returns an empty
frame, the harness returns Python `None` (`noRecs`), a third outcome
distinct from the not-found signal `True` and from every score record. -/
theorem c10_none_on_empty_recs (data : List Row) (nm : Str) (topN : ℕ)
    (h1 : ∃ r ∈ data, r.name = nm)
    (h2 : content_based_recommendation data (some nm) topN = some []) :
    evaluate_content_based_metrics data nm topN = .noRecs ∧
    (EvalResult.noRecs : EvalResult) ≠ .notFound ∧
    (∀ p r f, (EvalResult.noRecs : EvalResult) ≠ .score p r f) := by
  have hne : data.filter (fun r => decide (r.name = nm)) ≠ [] := by
    obtain ⟨r, hr, he⟩ := h1
    intro hnil
    have := List.filter_eq_nil_iff.mp hnil r hr
    simp [he] at this
  cases hfe : data.filter (fun r => decide (r.name = nm)) with
  | nil => exact absurd hfe hne
  | cons it rest =>
    exact ⟨by simp [evaluate_content_based_metrics, hfe, h2],
      fun h => EvalResult.noConfusion h,
      fun p r f h => EvalResult.noConfusion h⟩

theorem c10_none_on_empty_recs_witness :
    (∃ r ∈ dataC10, r.name = "aa".data) ∧
    evaluate_content_based_metrics dataC10 ("aa".data) 10 = .noRecs :=
  ⟨by decide,
    (c10_none_on_empty_recs dataC10 ("aa".data) 10 (by decide) recsC10).1⟩

/-- C1: the F1 line is `2 * (p * r) / (p * r)`, dividing by the product
instead of the sum, so on a catalog where precision and recall are both 1
the returned F1 is 2 while the harmonic mean mandated by the claim is 1.
The catalog: two items of the same category with identical tags, query is
the first item name, `top_n = 1`. -/
theorem c1_f1_formula_bug :
    evaluate_content_based_metrics dataC1 ("aa".data) 1 = .score 1 1 2 ∧
    harmonicF1 1 1 = 1 ∧ (2 : ℚ) ≠ harmonicF1 1 1 := by
  refine ⟨?_, by norm_num [harmonicF1], by norm_num [harmonicF1]⟩
  have hrecs : content_based_recommendation dataC1 (some ("aa".data)) 1 =
      some [c1row1.display] := by
    rw [recs_two_eqtags (a := 0) (by decide) (by decide) (by decide)
      ⟨"tt".data, by decide⟩ (by decide) (by decide)]
    decide
  have hfe : dataC1.filter (fun r => decide (r.name = "aa".data)) = [c1row0] := by
    decide
  have htp : tpOf [c1row1.display] (relevantNames dataC1 c1row0) = 1 := by decide
  have hlen : ((relevantNames dataC1 c1row0).length : ℤ) - 1 = 1 := by decide
  simp only [evaluate_content_based_metrics, hfe, hrecs, htp, hlen]
  norm_num [metricsOf]

/-- C2: the F1 line raises `ZeroDivisionError` when `p + r > 0` but
`p * r = 0`.  The catalog: two items sharing the name `aa` with identical
tags; only the first carries the query category, so the relevance name set
is the singleton `aa`, `total_relevant = 0` forces recall 0, while the
recommended duplicate name gives a true positive and precision 1. -/
theorem c2_zero_division_crash :
    evaluate_content_based_metrics dataC2 ("aa".data) 1 =
      .raised .zeroDivErr := by
  have hrecs : content_based_recommendation dataC2 (some ("aa".data)) 1 =
      some [c2row1.display] := by
    rw [recs_two_eqtags (a := 0) (by decide) (by decide) (by decide)
      ⟨"tt".data, by decide⟩ (by decide) (by decide)]
    decide
  have hfe : dataC2.filter (fun r => decide (r.name = "aa".data)) =
      [c2row0, c2row1] := by decide
  have htp : tpOf [c2row1.display] (relevantNames dataC2 c2row0) = 1 := by decide
  have hlen : ((relevantNames dataC2 c2row0).length : ℤ) - 1 = 0 := by decide
  simp only [evaluate_content_based_metrics, hfe, hrecs, htp, hlen]
  norm_num [metricsOf]

/-- C4: the relevance set built by the harness also unions the names of rows
whose Brand equals the query item category (line 29 compares Brand against
`item_category`).  On this catalog the spec relevance set (same category,
query item excluded) is empty, so the claim prescribes recall 0, yet the
code reports recall 1 because the second row Brand `xx` equals the query
item category `xx`. -/
theorem c4_relevance_set_bug :
    evaluate_content_based_metrics dataC4 ("aa".data) 1 = .score 1 1 2 ∧
    specRelevant dataC4 c4row0 = [] := by
  refine ⟨?_, by decide⟩
  have hrecs : content_based_recommendation dataC4 (some ("aa".data)) 1 =
      some [c4row1.display] := by
    rw [recs_two_eqtags (a := 0) (by decide) (by decide) (by decide)
      ⟨"tt".data, by decide⟩ (by decide) (by decide)]
    decide
  have hfe : dataC4.filter (fun r => decide (r.name = "aa".data)) = [c4row0] := by
    decide
  have htp : tpOf [c4row1.display] (relevantNames dataC4 c4row0) = 1 := by decide
  have hlen : ((relevantNames dataC4 c4row0).length : ℤ) - 1 = 1 := by decide
  simp only [evaluate_content_based_metrics, hfe, hrecs, htp, hlen]
  norm_num [metricsOf]

/-- C3 (counterexample): catalog of two rows with identical tags; the query
`yy` resolves the anchor to index 1, both similarity scores tie, the stable
descending sort leaves index 0 first, skipping the first slot removes the
duplicate instead of the anchor, and the output is exactly the anchor row
display record. -/
theorem c3_counterexample :
    anchorIndex dataC3 (stripStr (lowerStr ("yy".data))) = some 1 ∧
    content_based_recommendation dataC3 (some ("yy".data)) 2 =
      some [c3row1.display] ∧
    1 ∈ topIndices dataC3 1 2 := by
  refine ⟨by decide, ?_, ?_⟩
  · rw [recs_two_eqtags (a := 1) (by decide) (by decide) (by decide)
      ⟨"tt".data, by decide⟩ (by decide) (by decide)]
    decide
  · rw [topIndices_pairEq (simScores_two (t := "tt".data) (by decide) (by decide))
      (by norm_num)]
    simp

theorem c3_anchor_excluded_witness :
    dotL ((tfidfRows dataC3W).getD 0 []) ((tfidfRows dataC3W).getD 0 []) ≠ 0 ∧
    0 ∉ topIndices dataC3W 0 5 := by
  have hvoc : vocabOf dataC3W = ["tt".data] := by decide
  have hdf : dfOf dataC3W ("tt".data) = 2 := by decide
  have hcnt : (tokensOf ("tt".data)).count ("tt".data) = 1 := by decide
  have hlen : dataC3W.length = 2 := by decide
  have hidf : idfOf dataC3W ("tt".data) = 1 := by
    unfold idfOf
    rw [hdf, hlen]
    norm_num [Real.log_one]
  have hrow : tfidfRowOf dataC3W ("tt".data) = [1] := by
    unfold tfidfRowOf
    rw [hvoc]
    simp only [List.map_cons, List.map_nil, hcnt, hidf]
    norm_num
  have hcorp : corpus dataC3W = ["tt".data, "tt".data] := by decide
  have hrows : tfidfRows dataC3W = [[1], [1]] := by
    unfold tfidfRows
    rw [hcorp]
    simp [hrow]
  have hnz : dotL ((tfidfRows dataC3W).getD 0 [])
      ((tfidfRows dataC3W).getD 0 []) ≠ 0 := by
    rw [hrows]
    simp [dotL]
  exact ⟨hnz, (c3_anchor_excluded (q := "aa".data) (a := 0) (by decide)
    (by decide) hnz (fun p hp h => absurd h (by omega))).2⟩

/-- C6 (amended): for nonempty queries whose normalised form carries no
regex metacharacter (no `.` in the modelled pattern fragment), the anchor is
the first catalog row whose lowercased name contains the lowercased, trimmed
query as a plain substring, and the call returns an empty frame when no row
name contains it.  As written the claim is false because the query is used
as a regular-expression pattern; see the counterexample. -/
theorem c6_substring_resolution (data : List Row) (q : Str) (topN : ℕ)
    (hq : q ≠ []) (hdot : '.' ∉ stripStr (lowerStr q)) :
    anchorIndex data (stripStr (lowerStr q)) =
      findFirst (fun r => containsSub (stripStr (lowerStr q)) (lowerStr r.name))
        data ∧
    (∀ a, anchorIndex data (stripStr (lowerStr q)) = some a →
      containsSub (stripStr (lowerStr q))
        (lowerStr (data.getD a default).name) = true ∧
      ∀ j < a, containsSub (stripStr (lowerStr q))
        (lowerStr (data.getD j default).name) = false) ∧
    ((∀ r ∈ data, containsSub (stripStr (lowerStr q)) (lowerStr r.name) = false) →
      content_based_recommendation data (some q) topN = some []) := by
  have hcong : anchorIndex data (stripStr (lowerStr q)) =
      findFirst (fun r => containsSub (stripStr (lowerStr q)) (lowerStr r.name))
        data :=
    findFirst_congr (fun r _ => reSearch_eq_containsSub hdot (lowerStr r.name))
  refine ⟨hcong, ?_, ?_⟩
  · intro a ha
    exact findFirst_spec (by rw [← hcong]; exact ha)
  · intro hnone
    have hno : anchorIndex data (stripStr (lowerStr q)) = none := by
      rw [hcong]
      exact (findFirst_eq_none_iff _ _).mpr hnone
    simp [content_based_recommendation, hq, hno]

theorem c6_substring_resolution_witness :
    ('.' ∉ stripStr (lowerStr ("b".data))) ∧
    anchorIndex dataC6W (stripStr (lowerStr ("b".data))) =
      findFirst
        (fun r => containsSub (stripStr (lowerStr ("b".data))) (lowerStr r.name))
        dataC6W :=
  ⟨by decide, (c6_substring_resolution dataC6W ("b".data) 5 (by decide)
    (by decide)).1⟩

/-- C6 (counterexample): no row name of this catalog contains the query `.`
as a substring, so the claim prescribes an empty result, yet the call
resolves an anchor because `.` as a regex pattern matches any character, and
returns a nonempty frame. -/
theorem c6_counterexample :
    containsSub (stripStr (lowerStr ['.'])) (lowerStr c6row0.name) = false ∧
    containsSub (stripStr (lowerStr ['.'])) (lowerStr c6row1.name) = false ∧
    content_based_recommendation dataC6 (some ['.']) 5 =
      some [c6row1.display] ∧
    some [c6row1.display] ≠ some ([] : List DisplayRec) := by
  refine ⟨by decide, by decide, ?_, by simp⟩
  rw [recs_two_eqtags (a := 0) (by decide) (by decide) (by decide)
    ⟨"tt".data, by decide⟩ (by decide) (by decide)]
  decide

/-- C7: when a nonempty query resolves to anchor `a` and the vocabulary is
nonempty, the returned sequence is the display-record projection (name,
brand, rating, review count, image url) of the pairs
`similarity_scores[1 : top_n + 1]`; it has length at most `top_n`, is sorted
by similarity descending with catalog order as tie-break (`rankRel`), and
every pair carries the cosine similarity of its row index to the anchor. -/
theorem c7_ranking_order (data : List Row) (q : Str) (a topN : ℕ)
    (hq : q ≠ []) (ha : anchorIndex data (stripStr (lowerStr q)) = some a)
    (hv : vocabOf data ≠ []) :
    content_based_recommendation data (some q) topN =
      some ((topPairs data a topN).map
        (fun p => (data.getD p.1 default).display)) ∧
    ((topPairs data a topN).map
      (fun p => (data.getD p.1 default).display)).length ≤ topN ∧
    List.Sorted rankRel (topPairs data a topN) ∧
    ∀ p ∈ topPairs data a topN, (simScores data a).get? p.1 = some p.2 := by
  refine ⟨?_, ?_, ?_, ?_⟩
  · rw [content_some hq ha hv]
    unfold topIndices
    rw [List.map_map]
    rfl
  · rw [List.length_map]
    exact List.length_take_le _ _
  · exact (sortPairs_sorted _).sublist
      ((List.take_sublist _ _).trans (List.drop_sublist _ _))
  · intro p hp
    have h1 : p ∈ rankedPairs data a :=
      List.mem_of_mem_drop (List.mem_of_mem_take hp)
    have h2 : p ∈ (simScores data a).enum := (sortPairs_perm _).subset h1
    exact List.mem_enum_iff_get?.mp h2

theorem c7_ranking_order_witness :
    anchorIndex dataC7 (stripStr (lowerStr ("aa".data))) = some 0 ∧
    vocabOf dataC7 ≠ [] ∧
    content_based_recommendation dataC7 (some ("aa".data)) 1 =
      some ((topPairs dataC7 0 1).map
        (fun p => (dataC7.getD p.1 default).display)) :=
  ⟨by decide, by decide,
    (c7_ranking_order dataC7 ("aa".data) 0 1 (by decide) (by decide)
      (by decide)).1⟩

/-- C8: a non-string query (`none`) or the empty string yields an empty
sequence, with no exception raised (the modelled call returns `some []`,
never the `none` that stands for a raised error). -/
theorem c8_empty_query (data : List Row) (topN : ℕ) :
    content_based_recommendation data none topN = some [] ∧
    content_based_recommendation data (some []) topN = some [] :=
  ⟨rfl, by simp [content_based_recommendation]⟩

/-- C9 (amended): a nonempty whitespace-only query passes validation,
normalises to the empty string, matches every row name under the pattern
search, anchors at row 0, and returns a nonempty sequence whenever the
catalog has at least two rows, at least one requested result and a nonempty
fitted vocabulary.  Without the vocabulary hypothesis the claim is false:
scikit-learn raises on an empty vocabulary (see the counterexample). -/
theorem c9_whitespace_query (data : List Row) (q : Str) (topN : ℕ)
    (hq : q ≠ []) (hws : ∀ c ∈ q, pyIsSpace c = true)
    (h2 : 2 ≤ data.length) (ht : 1 ≤ topN) (hv : vocabOf data ≠ []) :
    stripStr (lowerStr q) = [] ∧
    anchorIndex data (stripStr (lowerStr q)) = some 0 ∧
    (∀ r ∈ data, reSearch (stripStr (lowerStr q)) (lowerStr r.name) = true) ∧
    ∃ recs, content_based_recommendation data (some q) topN = some recs ∧
      recs ≠ [] := by
  have hnorm : stripStr (lowerStr q) = [] :=
    stripStr_of_all_space (lowerStr_all_space hws)
  have hall : ∀ r ∈ data, reSearch (stripStr (lowerStr q)) (lowerStr r.name) = true := by
    intro r _
    rw [hnorm]
    exact reSearch_nil _
  have hne : data ≠ [] := by
    intro h
    rw [h] at h2
    simp at h2
  have ha : anchorIndex data (stripStr (lowerStr q)) = some 0 :=
    findFirst_all_true hne (fun r hr => hall r hr)
  refine ⟨hnorm, ha, hall, _, content_some hq ha hv, ?_⟩
  intro hcon
  have hll : ((topIndices data 0 topN).map
      (fun i => (data.getD i default).display)).length = min topN (data.length - 1) := by
    rw [List.length_map, topIndices_length]
  rw [hcon] at hll
  simp at hll
  omega

theorem c9_whitespace_query_witness :
    (∀ c ∈ ([' '] : Str), pyIsSpace c = true) ∧
    vocabOf dataC9W ≠ [] ∧
    ∃ recs, content_based_recommendation dataC9W (some [' ']) 1 = some recs ∧
      recs ≠ [] :=
  ⟨by decide, by decide,
    (c9_whitespace_query dataC9W [' '] 1 (by decide) (by decide) (by decide)
      (by decide) (by decide)).2.2.2⟩

/-- C9 (counterexample): a two-row catalog whose tags are all empty gives an
empty fitted vocabulary; the whitespace query passes validation and resolves
an anchor, but `fit_transform` raises `ValueError` (modelled as `none`), so
the call does not return a nonempty sequence as the claim states. -/
theorem c9_counterexample :
    2 ≤ dataC9.length ∧ (∀ c ∈ ([' '] : Str), pyIsSpace c = true) ∧
    content_based_recommendation dataC9 (some [' ']) 10 = none := by
  refine ⟨by decide, by decide, ?_⟩
  have ha : anchorIndex dataC9 (stripStr (lowerStr [' '])) = some 0 := by decide
  have hv : vocabOf dataC9 = [] := by decide
  simp [content_based_recommendation, ha, hv]

end CBF
